import Mathlib

/-!
Verification development for the bi-temporal Entity-Value-Attribute (EVA) storage
and query model of the sqlite-performance repository.

The embedding models:
* the schema of `src/db/append_dc_data.py` (`SCHEMA_TABLES_SQL`): tables
  `string_attributes`, `numeric_attributes`, `payloads` (validity-windowed rows
  `[from_block, to_block)`) and the `last_block` singleton;
* the row generation of `node_to_sql_inserts` / `append_blocks`;
* the read queries of `src/db/query_dc_benchmark.py` (`QueryExecutor`), with SQL
  bag semantics rendered as list comprehensions: a join is a nested `flatMap`
  over the joined table instances, each `WHERE` conjunct filtering the arm it
  constrains (which yields the same bag, in the same nested-loop order, as
  filtering the full cross product);
* the close-then-insert write path `write_entity`, which is implemented by the
  external store and modelled here from the specification.

Entity keys (32-byte blobs) are modelled as `Nat`; blocks as `Nat`; numeric
attribute values as `Int` (SQLite `INTEGER`); string values as `String`.
Latency fields and the payload blob contents are irrelevant to every property
considered and are modelled as opaque data (`payload : Nat`); the denormalized
JSON attribute caches of the `payloads` table are not read by any modelled
query and are omitted.
-/

namespace SqlitePerf

/-- A row of `string_attributes` or `numeric_attributes`:
`(entity_key, from_block, to_block, key, value)` with primary key
`(entity_key, key, from_block)` (schema `SCHEMA_TABLES_SQL`). -/
structure AttrRow (α : Type) where
  entity_key : Nat
  from_block : Nat
  to_block : Nat
  key : String
  value : α
deriving DecidableEq, Repr

/-- Rows of the `string_attributes` table. -/
abbrev StrRow := AttrRow String

/-- Rows of the `numeric_attributes` table. -/
abbrev NumRow := AttrRow Int

/-- A row of the `payloads` table, primary key `(entity_key, from_block)`.
The payload blob is opaque; `content_type` and the cached attribute JSON
columns are never read by the modelled queries and are omitted. -/
structure PayloadRow where
  entity_key : Nat
  from_block : Nat
  to_block : Nat
  payload : Nat
deriving DecidableEq, Repr

/-- The database state: the three fact tables plus the `last_block` singleton
(`none` when the `last_block` table holds no row). -/
structure DB where
  string_attributes : List StrRow
  numeric_attributes : List NumRow
  payloads : List PayloadRow
  last_block : Option Nat
deriving Repr

/-- The uniform temporal visibility predicate of every query clause:
`from_block <= B AND to_block > B`. -/
def visibleAt (b : Nat) (r : AttrRow α) : Bool :=
  decide (r.from_block ≤ b) && decide (b < r.to_block)

/-- Visibility of a payload row, same predicate as for attribute rows. -/
def payloadVisibleAt (b : Nat) (r : PayloadRow) : Bool :=
  decide (r.from_block ≤ b) && decide (b < r.to_block)

theorem visibleAt_iff {b : Nat} {r : AttrRow α} :
    visibleAt b r = true ↔ r.from_block ≤ b ∧ b < r.to_block := by
  simp [visibleAt]

/-! ### Write side: `node_to_sql_inserts` (src/db/append_dc_data.py) -/

/-- A `NodeEntity` as produced by the generator (`append_dc_data.NodeEntity`). -/
structure NodeEntity where
  entity_key : Nat
  dc_id : String
  node_id : String
  region : String
  status : String
  vm_type : String
  cpu_count : Int
  ram_gb : Int
  price_hour : Int
  avail_hours : Int
  payload : Nat
  block : Nat
  ttl : Nat
  tx_index : Int := 0
  op_index : Int := 0
  sequence : Int := 0
deriving DecidableEq, Repr

/-- The creator address constant used by `append_blocks`, modelled opaquely. -/
def creatorAddress : String := "0xdc0001"

/-- The string-attribute `(key, value)` pairs written for a node by
`node_to_sql_inserts` (4 custom in the docstring, 6 in the code, plus 3
system attributes). The `$key` value is the hex rendering of the entity key,
modelled opaquely from the `Nat` key. -/
def nodeStringAttrs (n : NodeEntity) : List (String × String) :=
  [("dc_id", n.dc_id),
   ("type", "node"),
   ("node_id", n.node_id),
   ("region", n.region),
   ("status", n.status),
   ("vm_type", n.vm_type),
   ("$creator", creatorAddress),
   ("$key", "0x" ++ toString n.entity_key),
   ("$owner", creatorAddress)]

/-- The numeric-attribute `(key, value)` pairs written for a node by
`node_to_sql_inserts` (4 custom plus 5 system attributes). -/
def nodeNumericAttrs (n : NodeEntity) : List (String × Int) :=
  [("cpu_count", n.cpu_count),
   ("ram_gb", n.ram_gb),
   ("price_hour", n.price_hour),
   ("avail_hours", n.avail_hours),
   ("$createdAtBlock", (n.block : Int)),
   ("$expiration", ((n.block + n.ttl : Nat) : Int)),
   ("$opIndex", n.op_index),
   ("$sequence", n.sequence),
   ("$txIndex", n.tx_index)]

/-- The `string_attributes` rows inserted for a node: every attribute is
validity-windowed `[block, block + ttl)` (`expires_at_block = block + node.ttl`). -/
def nodeStringRows (n : NodeEntity) : List StrRow :=
  (nodeStringAttrs n).map fun kv =>
    ⟨n.entity_key, n.block, n.block + n.ttl, kv.1, kv.2⟩

/-- The `numeric_attributes` rows inserted for a node, windowed `[block, block + ttl)`. -/
def nodeNumericRows (n : NodeEntity) : List NumRow :=
  (nodeNumericAttrs n).map fun kv =>
    ⟨n.entity_key, n.block, n.block + n.ttl, kv.1, kv.2⟩

/-- The `payloads` row inserted for a node, windowed `[block, block + ttl)`. -/
def nodePayloadRow (n : NodeEntity) : PayloadRow :=
  ⟨n.entity_key, n.block, n.block + n.ttl, n.payload⟩

/-- Executing the inserts of `node_to_sql_inserts` against a database, as
`append_blocks` does (plain `INSERT` statements, no closing of prior rows). -/
def insertNode (db : DB) (n : NodeEntity) : DB :=
  { db with
    string_attributes := db.string_attributes ++ nodeStringRows n
    numeric_attributes := db.numeric_attributes ++ nodeNumericRows n
    payloads := db.payloads ++ [nodePayloadRow n] }

/-! ### Query side: `QueryExecutor` (src/db/query_dc_benchmark.py) -/

/-- The observable part of a `QueryResult`: the row count and the success flag
(latency is a wall-clock measurement with no logical content). -/
structure QueryOutcome where
  row_count : Nat
  success : Bool
deriving DecidableEq, Repr

/-- The `(key, value)` pairs of all string attribute rows of `ek` visible at
`b` (`SELECT key, value FROM string_attributes WHERE entity_key = ? AND
from_block <= ? AND to_block > ?`). -/
def entityStrAttrs (db : DB) (ek b : Nat) : List (String × String) :=
  (db.string_attributes.filter fun r =>
    r.entity_key == ek && visibleAt b r).map fun r => (r.key, r.value)

/-- The `(key, value)` pairs of all numeric attribute rows of `ek` visible at `b`. -/
def entityNumAttrs (db : DB) (ek b : Nat) : List (String × Int) :=
  (db.numeric_attributes.filter fun r =>
    r.entity_key == ek && visibleAt b r).map fun r => (r.key, r.value)

/-- The payload row of `ek` visible at `b` with the greatest `from_block`
(`ORDER BY from_block DESC LIMIT 1`). -/
def latestPayload (db : DB) (ek b : Nat) : Option PayloadRow :=
  (List.insertionSort (fun r₁ r₂ : PayloadRow => r₂.from_block ≤ r₁.from_block)
    (db.payloads.filter fun r => r.entity_key == ek && payloadVisibleAt b r)).head?

/-- `QueryExecutor._execute_point_by_key`: direct lookup by `entity_key`; the
row count is string rows + numeric rows + (1 if a visible payload row exists),
and the query always succeeds (the missing-parameter error branch is outside
the modelled contract, which always supplies a key). -/
def execute_point_by_key (db : DB) (ek b : Nat) : QueryOutcome :=
  let str_attrs := entityStrAttrs db ek b
  let num_attrs := entityNumAttrs db ek b
  let payload := latestPayload db ek b
  ⟨str_attrs.length + num_attrs.length + (if payload.isSome then 1 else 0), true⟩

/-- Step 1 of `QueryExecutor._execute_point_by_id`: resolve an id value to an
`entity_key` through the visible row of `id_key` with the greatest `from_block`
(`ORDER BY from_block DESC LIMIT 1`). -/
def resolveId (db : DB) (id_key id_value : String) (b : Nat) : Option Nat :=
  ((List.insertionSort (fun r₁ r₂ : StrRow => r₂.from_block ≤ r₁.from_block)
    (db.string_attributes.filter fun r =>
      r.key == id_key && r.value == id_value && visibleAt b r)).head?).map
    (fun r => r.entity_key)

/-- `QueryExecutor._execute_point_by_id`: choose `node_id` or `workload_id`
from the id prefix, resolve to an entity key; a failed resolution returns a
successful outcome with zero rows, otherwise all visible attributes and the
latest payload of the entity are fetched. -/
def execute_point_by_id (db : DB) (entity_id : String) (b : Nat) : QueryOutcome :=
  let id_key := if entity_id.startsWith "node_" then "node_id" else "workload_id"
  match resolveId db id_key entity_id b with
  | none => ⟨0, true⟩
  | some ek => execute_point_by_key db ek b

/-- `QueryExecutor._execute_point_miss`: lookup of a `node_id` value expected
to be absent (`... WHERE key = 'node_id' AND value = ? AND from_block <= ?
AND to_block > ? LIMIT 1`); the outcome is successful with `row_count` 0 when
no row matches and 1 otherwise. -/
def execute_point_miss (db : DB) (entity_id : String) (b : Nat) : QueryOutcome :=
  let row := (db.string_attributes.filter fun r =>
    r.key == "node_id" && r.value == entity_id && visibleAt b r).head?
  ⟨if row.isSome then 1 else 0, true⟩

/-- Parameters of the node filter query (`QueryParams`, restricted to the
fields `_execute_node_filter` reads). -/
structure FilterParams where
  current_block : Nat
  region : String
  vm_type : String
  min_cpu : Int
  min_ram : Int
  min_hours : Int
  max_price : Int
deriving DecidableEq, Repr

/-- One joined row of the seven-way self-join of `_execute_node_filter`: one
table instance per predicate, aliased as in the SQL text. -/
structure NodeFilterTuple where
  sa_status : StrRow
  sa_region : StrRow
  sa_vm : StrRow
  na_cpu : NumRow
  na_ram : NumRow
  na_hours : NumRow
  na_price : NumRow
deriving DecidableEq, Repr

/-- The joined rows of `_execute_node_filter` after the `WHERE` clause, with a
visibility mask: `mask i = true` keeps the temporal predicate
`from_block <= ? AND to_block > ?` on join arm `i` (arm order: status, region,
vm_type, cpu, ram, hours, price), `mask i = false` omits it. The full query of
the source is `mask = fun _ => true`; other masks model the correctness bug of
dropping the predicate on one arm. Each equality/range conjunct of the `WHERE`
clause filters the arm it constrains. -/
def nodeFilterTuplesMask (db : DB) (p : FilterParams) (mask : Fin 7 → Bool) :
    List NodeFilterTuple :=
  let b := p.current_block
  (db.string_attributes.filter fun r =>
      r.key == "status" && r.value == "available" &&
      (!mask 0 || visibleAt b r)).flatMap fun s =>
  (db.string_attributes.filter fun r =>
      r.entity_key == s.entity_key && r.key == "region" && r.value == p.region &&
      (!mask 1 || visibleAt b r)).flatMap fun rg =>
  (db.string_attributes.filter fun r =>
      r.entity_key == s.entity_key && r.key == "vm_type" && r.value == p.vm_type &&
      (!mask 2 || visibleAt b r)).flatMap fun vm =>
  (db.numeric_attributes.filter fun r =>
      r.entity_key == s.entity_key && r.key == "cpu_count" && decide (r.value ≥ p.min_cpu) &&
      (!mask 3 || visibleAt b r)).flatMap fun c =>
  (db.numeric_attributes.filter fun r =>
      r.entity_key == s.entity_key && r.key == "ram_gb" && decide (r.value ≥ p.min_ram) &&
      (!mask 4 || visibleAt b r)).flatMap fun ra =>
  (db.numeric_attributes.filter fun r =>
      r.entity_key == s.entity_key && r.key == "avail_hours" && decide (r.value ≥ p.min_hours) &&
      (!mask 5 || visibleAt b r)).flatMap fun ho =>
  (db.numeric_attributes.filter fun r =>
      r.entity_key == s.entity_key && r.key == "price_hour" && decide (r.value ≤ p.max_price) &&
      (!mask 6 || visibleAt b r)).map fun pr =>
  ⟨s, rg, vm, c, ra, ho, pr⟩

/-- The joined rows of `_execute_node_filter` as written in the source: the
temporal predicate is applied on every join arm. -/
def nodeFilterTuples (db : DB) (p : FilterParams) : List NodeFilterTuple :=
  let b := p.current_block
  (db.string_attributes.filter fun r =>
      r.key == "status" && r.value == "available" && visibleAt b r).flatMap fun s =>
  (db.string_attributes.filter fun r =>
      r.entity_key == s.entity_key && r.key == "region" && r.value == p.region &&
      visibleAt b r).flatMap fun rg =>
  (db.string_attributes.filter fun r =>
      r.entity_key == s.entity_key && r.key == "vm_type" && r.value == p.vm_type &&
      visibleAt b r).flatMap fun vm =>
  (db.numeric_attributes.filter fun r =>
      r.entity_key == s.entity_key && r.key == "cpu_count" && decide (r.value ≥ p.min_cpu) &&
      visibleAt b r).flatMap fun c =>
  (db.numeric_attributes.filter fun r =>
      r.entity_key == s.entity_key && r.key == "ram_gb" && decide (r.value ≥ p.min_ram) &&
      visibleAt b r).flatMap fun ra =>
  (db.numeric_attributes.filter fun r =>
      r.entity_key == s.entity_key && r.key == "avail_hours" && decide (r.value ≥ p.min_hours) &&
      visibleAt b r).flatMap fun ho =>
  (db.numeric_attributes.filter fun r =>
      r.entity_key == s.entity_key && r.key == "price_hour" && decide (r.value ≤ p.max_price) &&
      visibleAt b r).map fun pr =>
  ⟨s, rg, vm, c, ra, ho, pr⟩

/-- SQL `DISTINCT` on a projected column: keep the first occurrence of each
value, in result order (accumulator of the values already emitted). -/
def dedupFirstAux (seen : List Nat) : List Nat → List Nat
  | [] => []
  | a :: l => if a ∈ seen then dedupFirstAux seen l else a :: dedupFirstAux (a :: seen) l

/-- SQL `DISTINCT` keeping first occurrences. -/
def dedupFirst (l : List Nat) : List Nat := dedupFirstAux [] l

/-- The `DISTINCT sa_status.entity_key` projection of `_execute_node_filter`
before `ORDER BY`/`LIMIT`: the set of matching entity keys, as a duplicate-free
list. -/
def nodeFilterKeys (db : DB) (p : FilterParams) : List Nat :=
  dedupFirst ((nodeFilterTuples db p).map fun t => t.sa_status.entity_key)

/-- The masked variant of `nodeFilterKeys`. -/
def nodeFilterKeysMask (db : DB) (p : FilterParams) (mask : Fin 7 → Bool) : List Nat :=
  dedupFirst ((nodeFilterTuplesMask db p mask).map fun t => t.sa_status.entity_key)

/-- The result sequence of `_execute_node_filter` before `LIMIT`: joined rows
ordered by `na_price.value ASC` (a stable sort, matching SQLite on this
query), projected to `DISTINCT` entity keys. -/
def nodeFilterSortedKeys (db : DB) (p : FilterParams) : List Nat :=
  dedupFirst ((List.insertionSort
      (fun t₁ t₂ : NodeFilterTuple => t₁.na_price.value ≤ t₂.na_price.value)
      (nodeFilterTuples db p)).map fun t => t.sa_status.entity_key)

/-- The full result sequence of `_execute_node_filter`: the ordered distinct
keys truncated to `LIMIT ?`. -/
def execute_node_filter (db : DB) (p : FilterParams) (limit : Nat) : List Nat :=
  (nodeFilterSortedKeys db p).take limit

/-- The outcome of `_execute_node_filter` as returned by the executor: a row
count and an unconditional success flag. -/
def execute_node_filter_outcome (db : DB) (p : FilterParams) (limit : Nat) : QueryOutcome :=
  ⟨(execute_node_filter db p limit).length, true⟩

/-- The `EXISTS` subquery shared by the workload queries: the entity also
carries a visible fact `type = 'workload'`. -/
def existsWorkloadType (db : DB) (ek b : Nat) : Bool :=
  db.string_attributes.any fun r2 =>
    r2.entity_key == ek && r2.key == "type" && r2.value == "workload" && visibleAt b r2

/-- The matching rows of `QueryExecutor._execute_workload_simple` before
`DISTINCT`/`LIMIT`: `status = 'pending'` visible at `b`, with the `EXISTS`
check for a visible `type = 'workload'` sibling fact. -/
def workloadSimpleRows (db : DB) (b : Nat) : List StrRow :=
  db.string_attributes.filter fun sa =>
    sa.key == "status" && sa.value == "pending" && visibleAt b sa &&
    existsWorkloadType db sa.entity_key b

/-- `QueryExecutor._execute_workload_simple`: `DISTINCT` entity keys, capped
at the workload limit. -/
def execute_workload_simple (db : DB) (b : Nat) (limit : Nat) : List Nat :=
  (dedupFirst ((workloadSimpleRows db b).map fun r => r.entity_key)).take limit

/-- One joined row of the three-way self-join of `_execute_workload_specific`. -/
structure WorkloadTuple where
  sa_status : StrRow
  sa_region : StrRow
  sa_vm : StrRow
deriving DecidableEq, Repr

/-- The joined rows of `QueryExecutor._execute_workload_specific` after the
`WHERE` clause: `status = 'pending'`, requested region and vm_type, all three
arms visibility-gated, plus the `EXISTS` check on a visible
`type = 'workload'` fact for the same entity. -/
def workloadSpecificTuples (db : DB) (p : FilterParams) : List WorkloadTuple :=
  let b := p.current_block
  (db.string_attributes.filter fun r =>
      r.key == "status" && r.value == "pending" && visibleAt b r &&
      existsWorkloadType db r.entity_key b).flatMap fun s =>
  (db.string_attributes.filter fun r =>
      r.entity_key == s.entity_key && r.key == "region" && r.value == p.region &&
      visibleAt b r).flatMap fun rg =>
  (db.string_attributes.filter fun r =>
      r.entity_key == s.entity_key && r.key == "vm_type" && r.value == p.vm_type &&
      visibleAt b r).map fun vm =>
  ⟨s, rg, vm⟩

/-- The `DISTINCT sa_status.entity_key` projection of
`_execute_workload_specific` before `LIMIT`. -/
def workloadSpecificKeys (db : DB) (p : FilterParams) : List Nat :=
  dedupFirst ((workloadSpecificTuples db p).map fun t => t.sa_status.entity_key)

/-- `QueryExecutor._execute_workload_specific` with its `LIMIT`. -/
def execute_workload_specific (db : DB) (p : FilterParams) (limit : Nat) : List Nat :=
  (workloadSpecificKeys db p).take limit

/-- One joined row of the shape-4 formulation of the workload-specific query. -/
structure WorkloadJoin4Tuple where
  sa_status : StrRow
  sa_region : StrRow
  sa_vm : StrRow
  sa_type : StrRow
deriving DecidableEq, Repr

/-- The shape-4 formulation of the worklad-specific query, per the spec: the
`type = 'workload'` predicate is expressed as a fourth self-join arm
intersected on `entity_key` (the idiom of `_execute_node_filter`) instead of
an `EXISTS` subquery; every arm carries the temporal predicate. -/
def workloadJoin4Tuples (db : DB) (p : FilterParams) : List WorkloadJoin4Tuple :=
  let b := p.current_block
  (db.string_attributes.filter fun r =>
      r.key == "status" && r.value == "pending" && visibleAt b r).flatMap fun s =>
  (db.string_attributes.filter fun r =>
      r.entity_key == s.entity_key && r.key == "region" && r.value == p.region &&
      visibleAt b r).flatMap fun rg =>
  (db.string_attributes.filter fun r =>
      r.entity_key == s.entity_key && r.key == "vm_type" && r.value == p.vm_type &&
      visibleAt b r).flatMap fun vm =>
  (db.string_attributes.filter fun r =>
      r.entity_key == s.entity_key && r.key == "type" && r.value == "workload" &&
      visibleAt b r).map fun ty =>
  ⟨s, rg, vm, ty⟩

/-- The `DISTINCT` entity keys of the shape-4 formulation. -/
def workloadJoin4Keys (db : DB) (p : FilterParams) : List Nat :=
  dedupFirst ((workloadJoin4Tuples db p).map fun t => t.sa_status.entity_key)

/-- The maximum of `from_block` over `string_attributes`
(`SELECT MAX(from_block) ...`, `NULL` on an empty table). -/
def maxFromBlock (rows : List StrRow) : Option Nat :=
  rows.foldl (fun acc r =>
    match acc with
    | none => some r.from_block
    | some m => some (max m r.from_block)) none

/-- `query_dc_benchmark.get_current_block`: the `last_block` singleton row if
present, else `MAX(from_block)` over `string_attributes`, else 1 — the Python
returns 1 both when the maximum is `NULL` (empty table) and when it is the
falsy value 0. -/
def get_current_block (db : DB) : Nat :=
  match db.last_block with
  | some b => b
  | none =>
    match maxFromBlock db.string_attributes with
    | none => 1
    | some m => if m = 0 then 1 else m

/-! ### Write path (close-then-insert), modelled from the spec

The close-then-insert write path is implemented by the external store
(op-geth-simulator); this repository contains only its HTTP callers
(`locust/dc_write_and_update.py`) and the insert-only bulk loader above. The
definitions below are therefore modelled from the specification's write
contract (§4.2): for every written attribute, an open fact row for the same
`(entity_key, key)` is closed by setting its `to_block` to the write block,
then a fresh row `[block, block + ttl)` is inserted; a duplicate
`(entity_key, key, from_block)` is a `ConstraintViolation` (the schema's
primary key). -/

/-- Write errors of the spec's write contract. -/
inductive WriteError where
  | constraintViolation
deriving DecidableEq, Repr

/-- Two attribute rows collide on the primary key `(entity_key, key, from_block)`. -/
def samePK (r₁ r₂ : AttrRow α) : Bool :=
  r₁.entity_key == r₂.entity_key && r₁.key == r₂.key && r₁.from_block == r₂.from_block

/-- Modelled from the spec: close every currently-open fact row (visible at
the write block) for `(e, k)` with `k` among the written keys, by setting its
`to_block` to the write block. -/
def closeOpenRows [DecidableEq α] (rows : List (AttrRow α)) (e : Nat) (ks : List String)
    (b : Nat) : List (AttrRow α) :=
  rows.map fun r =>
    if r.entity_key == e && decide (r.key ∈ ks) && visibleAt b r then
      { r with to_block := b }
    else r

/-- Modelled from the spec: insert one fact row, failing with
`ConstraintViolation` when its primary key `(entity_key, key, from_block)`
collides with an existing row. -/
def insertRow (rows : List (AttrRow α)) (r : AttrRow α) :
    Except WriteError (List (AttrRow α)) :=
  if rows.any (samePK r) then .error .constraintViolation else .ok (rows ++ [r])

/-- Modelled from the spec: write a map of attributes for entity `e` at block
`b` with time-to-live `ttl`: close the open rows of the written keys, then
insert one fresh row `(e, k, v, from_block = b, to_block = b + ttl)` per
attribute. -/
def writeAttrs [DecidableEq α] (rows : List (AttrRow α)) (e : Nat)
    (attrs : List (String × α)) (b ttl : Nat) : Except WriteError (List (AttrRow α)) :=
  attrs.foldlM (fun acc kv => insertRow acc ⟨e, b, b + ttl, kv.1, kv.2⟩)
    (closeOpenRows rows e (attrs.map Prod.fst) b)

/-- Modelled from the spec: `write_entity` on the two attribute tables (the
payload row carries no attribute facts and is irrelevant to the temporal
visibility invariant). The write is atomic: on any constraint violation the
whole state is unchanged. -/
def write_entity (db : DB) (e : Nat) (string_attrs : List (String × String))
    (numeric_attrs : List (String × Int)) (b ttl : Nat) : Except WriteError DB :=
  match writeAttrs db.string_attributes e string_attrs b ttl with
  | .error err => .error err
  | .ok strs =>
    match writeAttrs db.numeric_attributes e numeric_attrs b ttl with
    | .error err => .error err
    | .ok nums => .ok { db with string_attributes := strs, numeric_attributes := nums }

/-- Database states reachable through the write path: starting from the empty
store, a sequence of successful `write_entity` calls at non-decreasing blocks
(the block clock is monotone). `Reachable db c` states that `db` was produced
with every write block at most `c`. -/
inductive Reachable : DB → Nat → Prop where
  | empty (c : Nat) : Reachable ⟨[], [], [], none⟩ c
  | write {db : DB} {c : Nat} (e : Nat) (string_attrs : List (String × String))
      (numeric_attrs : List (String × Int)) {b ttl : Nat} {db' : DB}
      (hreach : Reachable db c) (hmono : c ≤ b)
      (hok : write_entity db e string_attrs numeric_attrs b ttl = .ok db') :
      Reachable db' b

/-! ### Reference definitions (from the specification's words) -/

/-- Modelled from the spec's brute-force in-memory reference filter: an entity
key matches iff it possesses string attribute rows `status='available'`,
`region`, `vm_type` as requested, and numeric attribute rows `cpu_count >=
min_cpu`, `ram_gb >= min_ram`, `avail_hours >= min_hours`, `price_hour <=
max_price`, each of the seven rows individually visible at the current block. -/
def nodeFilterRef (db : DB) (p : FilterParams) (e : Nat) : Bool :=
  let b := p.current_block
  (db.string_attributes.any fun r =>
    r.entity_key == e && r.key == "status" && r.value == "available" && visibleAt b r) &&
  (db.string_attributes.any fun r =>
    r.entity_key == e && r.key == "region" && r.value == p.region && visibleAt b r) &&
  (db.string_attributes.any fun r =>
    r.entity_key == e && r.key == "vm_type" && r.value == p.vm_type && visibleAt b r) &&
  (db.numeric_attributes.any fun r =>
    r.entity_key == e && r.key == "cpu_count" && decide (r.value ≥ p.min_cpu) && visibleAt b r) &&
  (db.numeric_attributes.any fun r =>
    r.entity_key == e && r.key == "ram_gb" && decide (r.value ≥ p.min_ram) && visibleAt b r) &&
  (db.numeric_attributes.any fun r =>
    r.entity_key == e && r.key == "avail_hours" && decide (r.value ≥ p.min_hours) && visibleAt b r) &&
  (db.numeric_attributes.any fun r =>
    r.entity_key == e && r.key == "price_hour" && decide (r.value ≤ p.max_price) && visibleAt b r)

/-! ### Basic lemmas -/

theorem mem_dedupFirstAux {a : Nat} {seen l : List Nat} :
    a ∈ dedupFirstAux seen l ↔ a ∈ l ∧ a ∉ seen := by
  induction l generalizing seen with
  | nil => simp [dedupFirstAux]
  | cons x l ih =>
    by_cases hx : x ∈ seen
    · simp only [dedupFirstAux, if_pos hx, ih, List.mem_cons]
      constructor
      · rintro ⟨h₁, h₂⟩; exact ⟨Or.inr h₁, h₂⟩
      · rintro ⟨h₁ | h₁, h₂⟩
        · exact absurd (h₁ ▸ hx) h₂
        · exact ⟨h₁, h₂⟩
    · simp only [dedupFirstAux, if_neg hx, List.mem_cons, ih]
      constructor
      · rintro (rfl | ⟨h₁, h₂⟩)
        · exact ⟨Or.inl rfl, hx⟩
        · exact ⟨Or.inr h₁, fun hs => h₂ (Or.inr hs)⟩
      · rintro ⟨rfl | h₁, h₂⟩
        · exact Or.inl rfl
        · by_cases hax : a = x
          · exact Or.inl hax
          · exact Or.inr ⟨h₁, by simp [List.mem_cons, hax, h₂]⟩

theorem mem_dedupFirst {a : Nat} {l : List Nat} : a ∈ dedupFirst l ↔ a ∈ l := by
  simp [dedupFirst, mem_dedupFirstAux]

theorem dedupFirstAux_sublist (seen l : List Nat) : (dedupFirstAux seen l).Sublist l := by
  induction l generalizing seen with
  | nil => simp [dedupFirstAux]
  | cons x l ih =>
    by_cases hx : x ∈ seen
    · simpa [dedupFirstAux, hx] using (ih seen).cons x
    · simpa [dedupFirstAux, hx] using (ih (x :: seen)).cons₂ x

theorem dedupFirst_sublist (l : List Nat) : (dedupFirst l).Sublist l :=
  dedupFirstAux_sublist [] l

/-- Filter-length monotonicity: a pointwise stronger predicate keeps at most
as many elements. -/
theorem length_filter_le_of_imp {l : List α} {p q : α → Bool}
    (h : ∀ x ∈ l, p x = true → q x = true) :
    (l.filter p).length ≤ (l.filter q).length := by
  induction l with
  | nil => simp
  | cons x l ih =>
    have hx := h x (List.mem_cons_self x l)
    have ih' := ih fun y hy => h y (List.mem_cons_of_mem _ hy)
    by_cases hp : p x = true
    · rw [List.filter_cons_of_pos hp, List.filter_cons_of_pos (hx hp)]
      simpa using ih'
    · rw [List.filter_cons_of_neg (by simpa using hp)]
      by_cases hq : q x = true
      · rw [List.filter_cons_of_pos hq]
        exact ih'.trans (Nat.le_succ _)
      · rw [List.filter_cons_of_neg (by simpa using hq)]
        exact ih'

/-- If any two kept elements are incompatible, a filter keeps at most one. -/
theorem length_filter_le_one_of_pairwise {l : List α} {p : α → Bool}
    {R : α → α → Prop} (hpw : List.Pairwise R l)
    (h : ∀ x ∈ l, ∀ y ∈ l, p x = true → p y = true → R x y → False) :
    (l.filter p).length ≤ 1 := by
  have hpwf : List.Pairwise R (l.filter p) := hpw.sublist (List.filter_sublist l)
  match hfl : l.filter p with
  | [] => simp
  | [x] => simp
  | x :: y :: t =>
    rw [hfl] at hpwf
    have hxm : x ∈ l := (List.filter_sublist l).mem (hfl ▸ List.mem_cons_self x (y :: t))
    have hym : y ∈ l :=
      (List.filter_sublist l).mem (hfl ▸ List.mem_cons_of_mem x (List.mem_cons_self y t))
    have hx : p x = true := List.of_mem_filter (hfl ▸ List.mem_cons_self x (y :: t))
    have hy : p y = true :=
      List.of_mem_filter (hfl ▸ List.mem_cons_of_mem x (List.mem_cons_self y t))
    rw [List.pairwise_cons] at hpwf
    exact (h x hxm y hym hx hy (hpwf.1 y (List.mem_cons_self y t))).elim

theorem mem_nodeFilterTuples {db : DB} {p : FilterParams} {t : NodeFilterTuple} :
    t ∈ nodeFilterTuples db p ↔
      (t.sa_status ∈ db.string_attributes ∧ t.sa_status.key = "status" ∧
        t.sa_status.value = "available" ∧ visibleAt p.current_block t.sa_status = true) ∧
      (t.sa_region ∈ db.string_attributes ∧ t.sa_region.entity_key = t.sa_status.entity_key ∧
        t.sa_region.key = "region" ∧ t.sa_region.value = p.region ∧
        visibleAt p.current_block t.sa_region = true) ∧
      (t.sa_vm ∈ db.string_attributes ∧ t.sa_vm.entity_key = t.sa_status.entity_key ∧
        t.sa_vm.key = "vm_type" ∧ t.sa_vm.value = p.vm_type ∧
        visibleAt p.current_block t.sa_vm = true) ∧
      (t.na_cpu ∈ db.numeric_attributes ∧ t.na_cpu.entity_key = t.sa_status.entity_key ∧
        t.na_cpu.key = "cpu_count" ∧ p.min_cpu ≤ t.na_cpu.value ∧
        visibleAt p.current_block t.na_cpu = true) ∧
      (t.na_ram ∈ db.numeric_attributes ∧ t.na_ram.entity_key = t.sa_status.entity_key ∧
        t.na_ram.key = "ram_gb" ∧ p.min_ram ≤ t.na_ram.value ∧
        visibleAt p.current_block t.na_ram = true) ∧
      (t.na_hours ∈ db.numeric_attributes ∧ t.na_hours.entity_key = t.sa_status.entity_key ∧
        t.na_hours.key = "avail_hours" ∧ p.min_hours ≤ t.na_hours.value ∧
        visibleAt p.current_block t.na_hours = true) ∧
      (t.na_price ∈ db.numeric_attributes ∧ t.na_price.entity_key = t.sa_status.entity_key ∧
        t.na_price.key = "price_hour" ∧ t.na_price.value ≤ p.max_price ∧
        visibleAt p.current_block t.na_price = true) := by
  simp only [nodeFilterTuples, List.mem_flatMap, List.mem_map, List.mem_filter,
    Bool.and_eq_true, beq_iff_eq, decide_eq_true_eq, ge_iff_le]
  constructor
  · rintro ⟨s, ⟨hs, ⟨⟨hsk, hsv⟩, hsvis⟩⟩, rg, ⟨hrg, ⟨⟨⟨hrge, hrgk⟩, hrgv⟩, hrgvis⟩⟩,
      vm, ⟨hvm, ⟨⟨⟨hvme, hvmk⟩, hvmv⟩, hvmvis⟩⟩, c, ⟨hc, ⟨⟨⟨hce, hck⟩, hcv⟩, hcvis⟩⟩,
      ra, ⟨hra, ⟨⟨⟨hrae, hrak⟩, hrav⟩, hravis⟩⟩, ho, ⟨hho, ⟨⟨⟨hhoe, hhok⟩, hhov⟩, hhovis⟩⟩,
      pr, ⟨hpr, ⟨⟨⟨hpre, hprk⟩, hprv⟩, hprvis⟩⟩, rfl⟩
    exact ⟨⟨hs, hsk, hsv, hsvis⟩, ⟨hrg, hrge, hrgk, hrgv, hrgvis⟩,
      ⟨hvm, hvme, hvmk, hvmv, hvmvis⟩, ⟨hc, hce, hck, hcv, hcvis⟩,
      ⟨hra, hrae, hrak, hrav, hravis⟩, ⟨hho, hhoe, hhok, hhov, hhovis⟩,
      ⟨hpr, hpre, hprk, hprv, hprvis⟩⟩
  · obtain ⟨s, rg, vm, c, ra, ho, pr⟩ := t
    rintro ⟨⟨hs, hsk, hsv, hsvis⟩, ⟨hrg, hrge, hrgk, hrgv, hrgvis⟩,
      ⟨hvm, hvme, hvmk, hvmv, hvmvis⟩, ⟨hc, hce, hck, hcv, hcvis⟩,
      ⟨hra, hrae, hrak, hrav, hravis⟩, ⟨hho, hhoe, hhok, hhov, hhovis⟩,
      ⟨hpr, hpre, hprk, hprv, hprvis⟩⟩
    exact ⟨s, ⟨hs, ⟨⟨hsk, hsv⟩, hsvis⟩⟩, rg, ⟨hrg, ⟨⟨⟨hrge, hrgk⟩, hrgv⟩, hrgvis⟩⟩,
      vm, ⟨hvm, ⟨⟨⟨hvme, hvmk⟩, hvmv⟩, hvmvis⟩⟩, c, ⟨hc, ⟨⟨⟨hce, hck⟩, hcv⟩, hcvis⟩⟩,
      ra, ⟨hra, ⟨⟨⟨hrae, hrak⟩, hrav⟩, hravis⟩⟩, ho, ⟨hho, ⟨⟨⟨hhoe, hhok⟩, hhov⟩, hhovis⟩⟩,
      pr, ⟨hpr, ⟨⟨⟨hpre, hprk⟩, hprv⟩, hprvis⟩⟩, rfl⟩

theorem mem_nodeFilterKeys {db : DB} {p : FilterParams} {e : Nat} :
    e ∈ nodeFilterKeys db p ↔ nodeFilterRef db p e = true := by
  rw [nodeFilterKeys]
  simp only [mem_dedupFirst, List.mem_map, nodeFilterRef, Bool.and_eq_true,
    List.any_eq_true, beq_iff_eq, decide_eq_true_eq, ge_iff_le, and_assoc]
  constructor
  · rintro ⟨t, ht, rfl⟩
    obtain ⟨⟨hs, hsk, hsv, hsvis⟩, ⟨hrg, hrge, hrgk, hrgv, hrgvis⟩,
      ⟨hvm, hvme, hvmk, hvmv, hvmvis⟩, ⟨hc, hce, hck, hcv, hcvis⟩,
      ⟨hra, hrae, hrak, hrav, hravis⟩, ⟨hho, hhoe, hhok, hhov, hhovis⟩,
      ⟨hpr, hpre, hprk, hprv, hprvis⟩⟩ := mem_nodeFilterTuples.mp ht
    exact ⟨⟨t.sa_status, hs, rfl, hsk, hsv, hsvis⟩,
      ⟨t.sa_region, hrg, hrge, hrgk, hrgv, hrgvis⟩,
      ⟨t.sa_vm, hvm, hvme, hvmk, hvmv, hvmvis⟩,
      ⟨t.na_cpu, hc, hce, hck, hcv, hcvis⟩,
      ⟨t.na_ram, hra, hrae, hrak, hrav, hravis⟩,
      ⟨t.na_hours, hho, hhoe, hhok, hhov, hhovis⟩,
      ⟨t.na_price, hpr, hpre, hprk, hprv, hprvis⟩⟩
  · rintro ⟨⟨s, hs, hse, hsk, hsv, hsvis⟩, ⟨rg, hrg, hrge, hrgk, hrgv, hrgvis⟩,
      ⟨vm, hvm, hvme, hvmk, hvmv, hvmvis⟩, ⟨c, hc, hce, hck, hcv, hcvis⟩,
      ⟨ra, hra, hrae, hrak, hrav, hravis⟩, ⟨ho, hho, hhoe, hhok, hhov, hhovis⟩,
      ⟨pr, hpr, hpre, hprk, hprv, hprvis⟩⟩
    refine ⟨⟨s, rg, vm, c, ra, ho, pr⟩, mem_nodeFilterTuples.mpr ?_, hse⟩
    exact ⟨⟨hs, hsk, hsv, hsvis⟩, ⟨hrg, hrge.trans hse.symm, hrgk, hrgv, hrgvis⟩,
      ⟨hvm, hvme.trans hse.symm, hvmk, hvmv, hvmvis⟩,
      ⟨hc, hce.trans hse.symm, hck, hcv, hcvis⟩,
      ⟨hra, hrae.trans hse.symm, hrak, hrav, hravis⟩,
      ⟨hho, hhoe.trans hse.symm, hhok, hhov, hhovis⟩,
      ⟨hpr, hpre.trans hse.symm, hprk, hprv, hprvis⟩⟩

theorem nodeFilterTuplesMask_true (db : DB) (p : FilterParams) :
    nodeFilterTuplesMask db p (fun _ => true) = nodeFilterTuples db p := by
  simp [nodeFilterTuplesMask, nodeFilterTuples]

/-- The attribute key constrained by join arm `i` of `_execute_node_filter`. -/
def armKey : Fin 7 → String
  | 0 => "status"
  | 1 => "region"
  | 2 => "vm_type"
  | 3 => "cpu_count"
  | 4 => "ram_gb"
  | 5 => "avail_hours"
  | 6 => "price_hour"

/-- Validity window end for the single-entity counterexample databases: the
row of the designated stale attribute ends at block 10, all others at 100. -/
def staleToBlock (k stale : String) : Nat := if k == stale then 10 else 100

/-- A database holding one node entity whose attribute `stale` has already
expired at block 50 while every other attribute row is still visible. -/
def armDB (stale : String) : DB where
  string_attributes :=
    [⟨1, 0, staleToBlock "status" stale, "status", "available"⟩,
     ⟨1, 0, staleToBlock "region" stale, "region", "eu-west"⟩,
     ⟨1, 0, staleToBlock "vm_type" stale, "vm_type", "gpu"⟩]
  numeric_attributes :=
    [⟨1, 0, staleToBlock "cpu_count" stale, "cpu_count", 8⟩,
     ⟨1, 0, staleToBlock "ram_gb" stale, "ram_gb", 16⟩,
     ⟨1, 0, staleToBlock "avail_hours" stale, "avail_hours", 8⟩,
     ⟨1, 0, staleToBlock "price_hour" stale, "price_hour", 100⟩]
  payloads := []
  last_block := none

/-- Filter parameters satisfied by the entity of `armDB` at block 50. -/
def pC1 : FilterParams := ⟨50, "eu-west", "gpu", 1, 1, 1, 1000⟩

/-- C1: for every database state and block, the `node_filter` query matches
exactly the entity keys possessing the seven attribute rows demanded by the
filter, each individually visible at the block — it agrees with the
brute-force in-memory reference filter; the source's query (all seven
temporal predicates present, `mask = fun _ => true`) coincides with the
unmasked definition; and omitting the visibility predicate on any single join
arm changes the result on some database. -/
theorem node_filter_matches_reference :
    (∀ (db : DB) (p : FilterParams) (e : Nat),
      e ∈ nodeFilterKeys db p ↔ nodeFilterRef db p e = true) ∧
    (∀ (db : DB) (p : FilterParams),
      nodeFilterKeysMask db p (fun _ => true) = nodeFilterKeys db p) ∧
    (∀ i : Fin 7, ∃ (db : DB) (p : FilterParams),
      nodeFilterKeysMask db p (fun j => j != i) ≠ nodeFilterKeys db p) := by
  refine ⟨fun db p e => mem_nodeFilterKeys,
    fun db p => by rw [nodeFilterKeysMask, nodeFilterKeys, nodeFilterTuplesMask_true],
    fun i => ⟨armDB (armKey i), pC1, ?_⟩⟩
  fin_cases i <;> decide

/-! ### C5: inclusive range predicate -/

/-- String attribute rows of one test node of the C5 database. -/
def c5Strings (e : Nat) : List StrRow :=
  [⟨e, 0, 100, "status", "available"⟩,
   ⟨e, 0, 100, "region", "eu-west"⟩,
   ⟨e, 0, 100, "vm_type", "gpu"⟩]

/-- Numeric attribute rows of one test node of the C5 database. -/
def c5Numerics (e : Nat) (cpu : Int) : List NumRow :=
  [⟨e, 0, 100, "cpu_count", cpu⟩,
   ⟨e, 0, 100, "ram_gb", 16⟩,
   ⟨e, 0, 100, "avail_hours", 8⟩,
   ⟨e, 0, 100, "price_hour", 100⟩]

/-- Four nodes with `cpu_count` 4, 8, 16 and 32, all rows visible at block 50,
all other filter attributes identical. -/
def dbC5 : DB where
  string_attributes := c5Strings 1 ++ c5Strings 2 ++ c5Strings 3 ++ c5Strings 4
  numeric_attributes :=
    c5Numerics 1 4 ++ c5Numerics 2 8 ++ c5Numerics 3 16 ++ c5Numerics 4 32
  payloads := []
  last_block := none

/-- The C5 filter: `cpu_count >= 8` at block 50, all other predicates satisfied
by every node of `dbC5`. -/
def pC5 : FilterParams := ⟨50, "eu-west", "gpu", 8, 1, 1, 1000⟩

/-- C5: the numeric range predicate is inclusive exactly as its operator name
states: every entity returned by the node filter carries a visible
`cpu_count` row with value `>= min_cpu`; and on nodes with `cpu_count` in
4, 8, 16, 32, the filter `cpu_count >= 8` returns exactly the nodes with
8, 16 and 32 — the node with 4 is excluded. -/
theorem range_predicate_inclusive :
    (∀ (db : DB) (p : FilterParams) (e : Nat), e ∈ nodeFilterKeys db p →
      ∃ r ∈ db.numeric_attributes, r.entity_key = e ∧ r.key = "cpu_count" ∧
        p.min_cpu ≤ r.value ∧ visibleAt p.current_block r = true) ∧
    nodeFilterKeys dbC5 pC5 = [2, 3, 4] := by
  constructor
  · intro db p e he
    have h := mem_nodeFilterKeys.mp he
    rw [nodeFilterRef] at h
    simp only [Bool.and_eq_true, List.any_eq_true, beq_iff_eq, decide_eq_true_eq,
      ge_iff_le, and_assoc] at h
    obtain ⟨-, -, -, ⟨r, hr, hre, hrk, hrv, hrvis⟩, -⟩ := h
    exact ⟨r, hr, hre, hrk, hrv, hrvis⟩
  · decide

/-- C5 witness: instantiating the range property at node 2 of the concrete
database. -/
theorem range_predicate_inclusive_witness :
    ∃ r ∈ dbC5.numeric_attributes, r.entity_key = 2 ∧ r.key = "cpu_count" ∧
      pC5.min_cpu ≤ r.value ∧ visibleAt pC5.current_block r = true :=
  range_predicate_inclusive.1 dbC5 pC5 2 (by decide)

/-! ### C7: workload_specific versus the shape-4 self-join -/

theorem mem_workloadSpecificKeys {db : DB} {p : FilterParams} {e : Nat} :
    e ∈ workloadSpecificKeys db p ↔
      (∃ r ∈ db.string_attributes, r.entity_key = e ∧ r.key = "status" ∧
        r.value = "pending" ∧ visibleAt p.current_block r = true) ∧
      (∃ r ∈ db.string_attributes, r.entity_key = e ∧ r.key = "region" ∧
        r.value = p.region ∧ visibleAt p.current_block r = true) ∧
      (∃ r ∈ db.string_attributes, r.entity_key = e ∧ r.key = "vm_type" ∧
        r.value = p.vm_type ∧ visibleAt p.current_block r = true) ∧
      (∃ r ∈ db.string_attributes, r.entity_key = e ∧ r.key = "type" ∧
        r.value = "workload" ∧ visibleAt p.current_block r = true) := by
  rw [workloadSpecificKeys]
  simp only [mem_dedupFirst, List.mem_map, workloadSpecificTuples, existsWorkloadType,
    List.mem_flatMap, List.mem_filter, List.any_eq_true, Bool.and_eq_true, beq_iff_eq,
    and_assoc]
  constructor
  · rintro ⟨t, ⟨s, hs, hsk, hsv, hsvis, ⟨r2, hr2, hr2e, hr2k, hr2v, hr2vis⟩,
      rg, hrg, hrge, hrgk, hrgv, hrgvis, vm, hvm, hvme, hvmk, hvmv, hvmvis, rfl⟩, rfl⟩
    exact ⟨⟨s, hs, rfl, hsk, hsv, hsvis⟩, ⟨rg, hrg, hrge, hrgk, hrgv, hrgvis⟩,
      ⟨vm, hvm, hvme, hvmk, hvmv, hvmvis⟩, ⟨r2, hr2, hr2e, hr2k, hr2v, hr2vis⟩⟩
  · rintro ⟨⟨s, hs, hse, hsk, hsv, hsvis⟩, ⟨rg, hrg, hrge, hrgk, hrgv, hrgvis⟩,
      ⟨vm, hvm, hvme, hvmk, hvmv, hvmvis⟩, ⟨r2, hr2, hr2e, hr2k, hr2v, hr2vis⟩⟩
    exact ⟨⟨s, rg, vm⟩,
      ⟨s, hs, hsk, hsv, hsvis, ⟨r2, hr2, hr2e.trans hse.symm, hr2k, hr2v, hr2vis⟩,
        rg, hrg, hrge.trans hse.symm, hrgk, hrgv, hrgvis,
        vm, hvm, hvme.trans hse.symm, hvmk, hvmv, hvmvis, rfl⟩, hse⟩

theorem mem_workloadJoin4Keys {db : DB} {p : FilterParams} {e : Nat} :
    e ∈ workloadJoin4Keys db p ↔
      (∃ r ∈ db.string_attributes, r.entity_key = e ∧ r.key = "status" ∧
        r.value = "pending" ∧ visibleAt p.current_block r = true) ∧
      (∃ r ∈ db.string_attributes, r.entity_key = e ∧ r.key = "region" ∧
        r.value = p.region ∧ visibleAt p.current_block r = true) ∧
      (∃ r ∈ db.string_attributes, r.entity_key = e ∧ r.key = "vm_type" ∧
        r.value = p.vm_type ∧ visibleAt p.current_block r = true) ∧
      (∃ r ∈ db.string_attributes, r.entity_key = e ∧ r.key = "type" ∧
        r.value = "workload" ∧ visibleAt p.current_block r = true) := by
  rw [workloadJoin4Keys]
  simp only [mem_dedupFirst, List.mem_map, workloadJoin4Tuples, List.mem_flatMap,
    List.mem_filter, Bool.and_eq_true, beq_iff_eq, and_assoc]
  constructor
  · rintro ⟨t, ⟨s, hs, hsk, hsv, hsvis, rg, hrg, hrge, hrgk, hrgv, hrgvis,
      vm, hvm, hvme, hvmk, hvmv, hvmvis, ty, hty, htye, htyk, htyv, htyvis, rfl⟩, rfl⟩
    exact ⟨⟨s, hs, rfl, hsk, hsv, hsvis⟩, ⟨rg, hrg, hrge, hrgk, hrgv, hrgvis⟩,
      ⟨vm, hvm, hvme, hvmk, hvmv, hvmvis⟩, ⟨ty, hty, htye, htyk, htyv, htyvis⟩⟩
  · rintro ⟨⟨s, hs, hse, hsk, hsv, hsvis⟩, ⟨rg, hrg, hrge, hrgk, hrgv, hrgvis⟩,
      ⟨vm, hvm, hvme, hvmk, hvmv, hvmvis⟩, ⟨ty, hty, htye, htyk, htyv, htyvis⟩⟩
    exact ⟨⟨s, rg, vm, ty⟩,
      ⟨s, hs, hsk, hsv, hsvis, rg, hrg, hrge.trans hse.symm, hrgk, hrgv, hrgvis,
        vm, hvm, hvme.trans hse.symm, hvmk, hvmv, hvmvis,
        ty, hty, htye.trans hse.symm, htyk, htyv, htyvis, rfl⟩, hse⟩

/-- C7: for every database state and block, the existence-correlated workload
query (`status='pending'`, region and vm_type equality, and an `EXISTS` check
for a visible `type='workload'` fact of the same entity, all clauses
visibility-gated) returns the same set of entity keys as the shape-4
formulation expressing the `type='workload'` predicate as a fourth self-join
arm intersected on `entity_key`. -/
theorem workload_specific_equiv_join4 :
    ∀ (db : DB) (p : FilterParams) (e : Nat),
      e ∈ workloadSpecificKeys db p ↔ e ∈ workloadJoin4Keys db p := by
  intro db p e
  rw [mem_workloadSpecificKeys, mem_workloadJoin4Keys]

/-! ### C4: TTL round trip through point-by-key -/

/-- The empty database. -/
def emptyDB : DB := ⟨[], [], [], none⟩

/-- A concrete node written at block 10 with ttl 5. -/
def nC4 : NodeEntity :=
  ⟨1, "dc_01", "node_a", "eu-west", "available", "cpu", 4, 16, 100, 8, 0, 10, 5, 0, 0, 0⟩

/-- C4: a node written at block `b` with ttl `t` stores every fact and payload
row with `to_block = from_block + ttl`, and a point-by-key lookup returns its
19 rows (9 string + 9 numeric + 1 payload) at exactly the blocks `B` with
`from_block <= B < from_block + ttl`, and a successful zero-row outcome
outside that window; in particular, writing at block 10 with ttl 5 is found
at block 12 and absent at block 16. -/
theorem ttl_round_trip :
    (∀ (n : NodeEntity), ∀ r ∈ nodeStringRows n,
      r.from_block = n.block ∧ r.to_block = n.block + n.ttl) ∧
    (∀ (n : NodeEntity), ∀ r ∈ nodeNumericRows n,
      r.from_block = n.block ∧ r.to_block = n.block + n.ttl) ∧
    (∀ n : NodeEntity, (nodePayloadRow n).from_block = n.block ∧
      (nodePayloadRow n).to_block = n.block + n.ttl) ∧
    (∀ (n : NodeEntity) (B : Nat),
      execute_point_by_key (insertNode emptyDB n) n.entity_key B =
        if n.block ≤ B ∧ B < n.block + n.ttl then ⟨19, true⟩ else ⟨0, true⟩) ∧
    execute_point_by_key (insertNode emptyDB nC4) nC4.entity_key 12 = ⟨19, true⟩ ∧
    execute_point_by_key (insertNode emptyDB nC4) nC4.entity_key 16 = ⟨0, true⟩ := by
  refine ⟨?_, ?_, ?_, ?_, by decide, by decide⟩
  · intro n r hr
    simp only [nodeStringRows, List.mem_map] at hr
    obtain ⟨kv, -, rfl⟩ := hr
    exact ⟨rfl, rfl⟩
  · intro n r hr
    simp only [nodeNumericRows, List.mem_map] at hr
    obtain ⟨kv, -, rfl⟩ := hr
    exact ⟨rfl, rfl⟩
  · exact fun n => ⟨rfl, rfl⟩
  · intro n B
    by_cases h₁ : n.block ≤ B <;> by_cases h₂ : B < n.block + n.ttl <;>
      simp [execute_point_by_key, entityStrAttrs, entityNumAttrs, latestPayload,
        insertNode, emptyDB, nodeStringRows, nodeNumericRows, nodePayloadRow,
        nodeStringAttrs, nodeNumericAttrs, visibleAt, payloadVisibleAt,
        List.insertionSort, List.orderedInsert, h₁, h₂]

/-- C4 witness: the window membership facts at the concrete node `nC4`. -/
theorem ttl_round_trip_witness :
    (⟨nC4.entity_key, 10, 15, "status", "available"⟩ : StrRow) ∈ nodeStringRows nC4 ∧
    ((⟨nC4.entity_key, 10, 15, "status", "available"⟩ : StrRow).from_block = nC4.block ∧
      (⟨nC4.entity_key, 10, 15, "status", "available"⟩ : StrRow).to_block =
        nC4.block + nC4.ttl) :=
  ⟨by decide, ttl_round_trip.1 nC4 ⟨nC4.entity_key, 10, 15, "status", "available"⟩ (by decide)⟩

/-! ### C6: point misses are successful empty results -/

/-- C6: point lookups treat a miss as an ordinary successful outcome: the
point-miss query always reports success, and reports zero rows whenever no
visible `node_id` row carries the probed value (in particular for values
absent from the store, or present only outside their validity window); the
point-by-id query likewise always reports success and returns a successful
zero-row outcome for a value absent from the store. -/
theorem point_miss_is_success :
    (∀ (db : DB) (v : String) (b : Nat), (execute_point_miss db v b).success = true) ∧
    (∀ (db : DB) (v : String) (b : Nat),
      (∀ r ∈ db.string_attributes, r.key = "node_id" → r.value = v →
        ¬(r.from_block ≤ b ∧ b < r.to_block)) →
      execute_point_miss db v b = ⟨0, true⟩) ∧
    (∀ (db : DB) (v : String) (b : Nat), (execute_point_by_id db v b).success = true) ∧
    (∀ (db : DB) (v : String) (b : Nat),
      (∀ r ∈ db.string_attributes, r.value ≠ v) →
      execute_point_by_id db v b = ⟨0, true⟩) := by
  refine ⟨fun db v b => rfl, ?_, ?_, ?_⟩
  · intro db v b h
    have hnil : (db.string_attributes.filter fun r =>
        r.key == "node_id" && r.value == v && visibleAt b r) = [] := by
      rw [List.filter_eq_nil_iff]
      intro r hr
      simp only [Bool.and_eq_true, beq_iff_eq, visibleAt_iff, not_and]
      rintro ⟨hk, hv⟩ hfb hlt
      exact h r hr hk hv ⟨hfb, hlt⟩
    rw [execute_point_miss]
    simp [hnil]
  · intro db v b
    rw [execute_point_by_id]
    cases resolveId db (if v.startsWith "node_" then "node_id" else "workload_id") v b with
    | none => rfl
    | some ek => rfl
  · intro db v b h
    have hnil : ∀ k : String, (db.string_attributes.filter fun r =>
        r.key == k && r.value == v && visibleAt b r) = [] := by
      intro k
      rw [List.filter_eq_nil_iff]
      intro r hr
      simp only [Bool.and_eq_true, beq_iff_eq, not_and]
      rintro ⟨-, hv⟩
      exact absurd hv (h r hr)
    rw [execute_point_by_id]
    have : resolveId db (if v.startsWith "node_" then "node_id" else "workload_id") v b
        = none := by
      rw [resolveId, hnil]
      rfl
    rw [this]

/-- C6 witness: a database holding a `node_id` row only valid on `[0, 10)` and
queried at block 50 reports a successful zero-row miss. -/
theorem point_miss_is_success_witness :
    execute_point_miss ⟨[⟨1, 0, 10, "node_id", "node_x"⟩], [], [], none⟩ "node_x" 50
      = ⟨0, true⟩ :=
  point_miss_is_success.2.1 ⟨[⟨1, 0, 10, "node_id", "node_x"⟩], [], [], none⟩ "node_x" 50
    (by decide)

/-! ### C9: duplicate primary key is a surfaced constraint violation -/

/-- C9: an insert whose `(entity_key, key, from_block)` triple collides with
an existing row fails with `ConstraintViolation` — the failure is surfaced as
a write rejection (an `error` value, never an `ok`), and the table is
unchanged (no successor state is produced); conversely an insert succeeds
exactly when no collision exists, in which case the new row is appended. -/
theorem duplicate_pk_rejected :
    (∀ (rows : List StrRow) (r r' : StrRow), r ∈ rows → samePK r' r = true →
      insertRow rows r' = .error .constraintViolation) ∧
    (∀ (rows : List NumRow) (r r' : NumRow), r ∈ rows → samePK r' r = true →
      insertRow rows r' = .error .constraintViolation) ∧
    (∀ (α : Type) (rows : List (AttrRow α)) (r' : AttrRow α) (l : List (AttrRow α)),
      insertRow rows r' = .ok l ↔
        (∀ r ∈ rows, samePK r' r = false) ∧ l = rows ++ [r']) := by
  refine ⟨?_, ?_, ?_⟩
  · intro rows r r' hmem hpk
    rw [insertRow, if_pos]
    exact List.any_eq_true.mpr ⟨r, hmem, hpk⟩
  · intro rows r r' hmem hpk
    rw [insertRow, if_pos]
    exact List.any_eq_true.mpr ⟨r, hmem, hpk⟩
  · intro α rows r' l
    rw [insertRow]
    by_cases hany : rows.any (samePK r') = true
    · obtain ⟨r, hr, hpk⟩ := List.any_eq_true.mp hany
      rw [if_pos hany]
      constructor
      · intro hcon
        exact Except.noConfusion hcon
      · rintro ⟨hall, -⟩
        rw [hall r hr] at hpk
        exact Bool.noConfusion hpk
    · have hall : ∀ r ∈ rows, samePK r' r = false := by
        intro r hr
        cases hb : samePK r' r
        · rfl
        · exact absurd (List.any_eq_true.mpr ⟨r, hr, hb⟩) hany
      rw [if_neg hany]
      constructor
      · intro hok
        injection hok with hok
        exact ⟨hall, hok.symm⟩
      · rintro ⟨-, rfl⟩
        rfl

/-- C9 witness: inserting a row colliding with an existing `(entity_key, key,
from_block)` is rejected. -/
theorem duplicate_pk_rejected_witness :
    insertRow [(⟨1, 5, 20, "status", "available"⟩ : StrRow)]
      ⟨1, 5, 30, "status", "busy"⟩ = .error .constraintViolation :=
  duplicate_pk_rejected.1 [⟨1, 5, 20, "status", "available"⟩]
    ⟨1, 5, 20, "status", "available"⟩ ⟨1, 5, 30, "status", "busy"⟩ (by decide) (by decide)

/-! ### C10: current-block resolution fallback -/

/-- C10: `get_current_block` resolves the current block with a three-level
fallback: the `last_block` singleton when present; otherwise
`MAX(from_block)` over `string_attributes`; and 1 when that maximum is `NULL`
(empty table, `maxFromBlock = none` exactly on the empty table) or 0 — the
function is total, so it returns a value on every database. -/
theorem get_current_block_fallback :
    (∀ (db : DB) (b : Nat), db.last_block = some b → get_current_block db = b) ∧
    (∀ db : DB, db.last_block = none → db.string_attributes = [] →
      get_current_block db = 1) ∧
    (∀ (db : DB) (m : Nat), db.last_block = none →
      maxFromBlock db.string_attributes = some m →
      get_current_block db = if m = 0 then 1 else m) ∧
    (∀ rows : List StrRow, maxFromBlock rows = none ↔ rows = []) := by
  have haux : ∀ (rows : List StrRow) (a : Nat),
      ∃ m, rows.foldl (fun acc r =>
        match acc with
        | none => some r.from_block
        | some m => some (max m r.from_block)) (some a) = some m := by
    intro rows
    induction rows with
    | nil => exact fun a => ⟨a, rfl⟩
    | cons x t ih => exact fun a => ih (max a x.from_block)
  refine ⟨?_, ?_, ?_, ?_⟩
  · intro db b h
    rw [get_current_block, h]
  · intro db h hs
    rw [get_current_block, h, hs]
    rfl
  · intro db m h hm
    rw [get_current_block, h, hm]
  · intro rows
    constructor
    · intro h
      cases rows with
      | nil => rfl
      | cons x t =>
        rw [maxFromBlock, List.foldl_cons] at h
        obtain ⟨m, hm⟩ := haux t x.from_block
        rw [hm] at h
        exact absurd h (by simp)
    · rintro rfl
      rfl

/-- C10 witness: the three fallback levels at concrete databases. -/
theorem get_current_block_fallback_witness :
    get_current_block ⟨[], [], [], some 7⟩ = 7 ∧
    get_current_block emptyDB = 1 ∧
    get_current_block ⟨[⟨1, 4, 9, "status", "available"⟩], [], [], none⟩ = 4 :=
  ⟨get_current_block_fallback.1 ⟨[], [], [], some 7⟩ 7 rfl,
   get_current_block_fallback.2.1 emptyDB rfl rfl,
   by
    have := get_current_block_fallback.2.2.1
      ⟨[⟨1, 4, 9, "status", "available"⟩], [], [], none⟩ 4 rfl (by decide)
    simpa using this⟩

/-! ### C8: ordering, limit and silent truncation of node_filter -/

/-- The rows of one attribute table for `(e, k)` visible at `b`. -/
def matchingVisible (rows : List (AttrRow α)) (e : Nat) (k : String) (b : Nat) :
    List (AttrRow α) :=
  rows.filter fun r => r.entity_key == e && r.key == k && visibleAt b r

/-- No two rows of a table have overlapping validity windows for the same
`(entity_key, key)`: the spec's temporal visibility invariant in pairwise,
decidable form. -/
def overlapFree (rows : List (AttrRow α)) : Prop :=
  List.Pairwise (fun r₁ r₂ => r₁.entity_key = r₂.entity_key → r₁.key = r₂.key →
    min r₁.to_block r₂.to_block ≤ max r₁.from_block r₂.from_block) rows

instance (rows : List (AttrRow α)) : Decidable (overlapFree rows) := by
  unfold overlapFree
  infer_instance

theorem overlapFree_matchingVisible {rows : List (AttrRow α)} (h : overlapFree rows)
    (e : Nat) (k : String) (b : Nat) : (matchingVisible rows e k b).length ≤ 1 := by
  refine length_filter_le_one_of_pairwise h ?_
  intro x _ y _ hx hy hR
  simp only [Bool.and_eq_true, beq_iff_eq, visibleAt_iff] at hx hy
  obtain ⟨⟨hex, hkx⟩, hfx, htx⟩ := hx
  obtain ⟨⟨hey, hky⟩, hfy, hty⟩ := hy
  have := hR (hex.trans hey.symm) (hkx.trans hky.symm)
  omega

theorem eq_singleton_of_length_le_one {l : List α} {a : α}
    (hlen : l.length ≤ 1) (ha : a ∈ l) : l = [a] := by
  cases l with
  | nil => cases ha
  | cons x t =>
    cases t with
    | nil =>
      simp only [List.mem_singleton] at ha
      rw [ha]
    | cons y u => simp at hlen

/-- The price of an entity at a block: the value of its visible `price_hour`
row (well defined under the visibility invariant). -/
def entityPriceAt (db : DB) (b e : Nat) : Option Int :=
  ((matchingVisible db.numeric_attributes e "price_hour" b).map fun r => r.value).head?

theorem price_of_mem_tuples {db : DB} {p : FilterParams} {t : NodeFilterTuple}
    (hov : overlapFree db.numeric_attributes) (ht : t ∈ nodeFilterTuples db p) :
    entityPriceAt db p.current_block t.sa_status.entity_key = some t.na_price.value := by
  obtain ⟨-, -, -, -, -, -, h7⟩ := mem_nodeFilterTuples.mp ht
  obtain ⟨hpr, hpre, hprk, -, hprvis⟩ := h7
  have hmem : t.na_price ∈ matchingVisible db.numeric_attributes
      t.sa_status.entity_key "price_hour" p.current_block := by
    rw [matchingVisible, List.mem_filter]
    exact ⟨hpr, by simp [hpre, hprk, hprvis]⟩
  have hlen := overlapFree_matchingVisible hov t.sa_status.entity_key "price_hour"
    p.current_block
  rw [entityPriceAt, eq_singleton_of_length_le_one hlen hmem]
  rfl

instance : IsTotal NodeFilterTuple fun t₁ t₂ => t₁.na_price.value ≤ t₂.na_price.value :=
  ⟨fun a b => le_total a.na_price.value b.na_price.value⟩

instance : IsTrans NodeFilterTuple fun t₁ t₂ => t₁.na_price.value ≤ t₂.na_price.value :=
  ⟨fun _ _ _ hab hbc => le_trans hab hbc⟩

/-- C8: the node filter result is a deterministic sequence (a pure function of
the database state and parameters in this embedding): it is capped at `limit`
(`length ≤ limit`), exceeding the limit is not an error — the result is the
silent truncation of the full ordered key sequence and the outcome still
reports success; the truncated sequence ranges over exactly the matching key
set; and under the temporal visibility invariant on the numeric table it is
sorted ascending by the entity's price. -/
theorem node_filter_order_and_limit :
    (∀ (db : DB) (p : FilterParams) (limit : Nat),
      (execute_node_filter db p limit).length ≤ limit ∧
      execute_node_filter db p limit = (nodeFilterSortedKeys db p).take limit ∧
      (execute_node_filter_outcome db p limit).success = true) ∧
    (∀ (db : DB) (p : FilterParams) (e : Nat),
      e ∈ nodeFilterSortedKeys db p ↔ e ∈ nodeFilterKeys db p) ∧
    (∀ (db : DB) (p : FilterParams) (limit : Nat),
      overlapFree db.numeric_attributes →
      List.Pairwise (fun e₁ e₂ => ∀ v₁ v₂,
        entityPriceAt db p.current_block e₁ = some v₁ →
        entityPriceAt db p.current_block e₂ = some v₂ → v₁ ≤ v₂)
        (execute_node_filter db p limit)) := by
  refine ⟨fun db p limit => ⟨?_, rfl, rfl⟩, fun db p e => ?_, fun db p limit hov => ?_⟩
  · simp only [execute_node_filter, List.length_take]
    exact inf_le_left
  · simp only [nodeFilterSortedKeys, nodeFilterKeys, mem_dedupFirst, List.mem_map]
    constructor
    · rintro ⟨t, ht, rfl⟩
      exact ⟨t, (List.perm_insertionSort _ _).mem_iff.mp ht, rfl⟩
    · rintro ⟨t, ht, rfl⟩
      exact ⟨t, (List.perm_insertionSort _ _).mem_iff.mpr ht, rfl⟩
  · have hsorted : List.Pairwise
        (fun t₁ t₂ : NodeFilterTuple => t₁.na_price.value ≤ t₂.na_price.value)
        (List.insertionSort
          (fun t₁ t₂ : NodeFilterTuple => t₁.na_price.value ≤ t₂.na_price.value)
          (nodeFilterTuples db p)) :=
      List.sorted_insertionSort _ _
    have hmemiff : ∀ t : NodeFilterTuple,
        t ∈ List.insertionSort
          (fun t₁ t₂ : NodeFilterTuple => t₁.na_price.value ≤ t₂.na_price.value)
          (nodeFilterTuples db p) ↔ t ∈ nodeFilterTuples db p :=
      fun t => (List.perm_insertionSort _ _).mem_iff
    have hpw2 : List.Pairwise (fun t₁ t₂ : NodeFilterTuple => ∀ v₁ v₂,
        entityPriceAt db p.current_block t₁.sa_status.entity_key = some v₁ →
        entityPriceAt db p.current_block t₂.sa_status.entity_key = some v₂ → v₁ ≤ v₂)
        (List.insertionSort
          (fun t₁ t₂ : NodeFilterTuple => t₁.na_price.value ≤ t₂.na_price.value)
          (nodeFilterTuples db p)) := by
      refine hsorted.imp_of_mem ?_
      intro a c ha hc hle v₁ v₂ h₁ h₂
      rw [price_of_mem_tuples hov ((hmemiff a).mp ha)] at h₁
      rw [price_of_mem_tuples hov ((hmemiff c).mp hc)] at h₂
      injection h₁ with h₁
      injection h₂ with h₂
      rw [← h₁, ← h₂]
      exact hle
    have hpw3 := (@List.pairwise_map NodeFilterTuple Nat
      (fun t => t.sa_status.entity_key)
      (fun e₁ e₂ => ∀ v₁ v₂,
        entityPriceAt db p.current_block e₁ = some v₁ →
        entityPriceAt db p.current_block e₂ = some v₂ → v₁ ≤ v₂)
      (List.insertionSort
        (fun t₁ t₂ : NodeFilterTuple => t₁.na_price.value ≤ t₂.na_price.value)
        (nodeFilterTuples db p))).mpr hpw2
    have hsub : (execute_node_filter db p limit).Sublist
        ((List.insertionSort
          (fun t₁ t₂ : NodeFilterTuple => t₁.na_price.value ≤ t₂.na_price.value)
          (nodeFilterTuples db p)).map fun t => t.sa_status.entity_key) :=
      (List.take_sublist _ _).trans (dedupFirst_sublist _)
    exact List.Pairwise.sublist hsub hpw3

/-- C8 witness: the ordering property instantiated at the concrete C5
database, whose numeric table satisfies the visibility invariant. -/
theorem node_filter_order_and_limit_witness :
    List.Pairwise (fun e₁ e₂ => ∀ v₁ v₂,
      entityPriceAt dbC5 pC5.current_block e₁ = some v₁ →
      entityPriceAt dbC5 pC5.current_block e₂ = some v₂ → v₁ ≤ v₂)
      (execute_node_filter dbC5 pC5 100) :=
  node_filter_order_and_limit.2.2 dbC5 pC5 100 (by decide)

/-! ### Structure of the spec-modelled write path (for C2 and C3) -/

theorem except_bind_error {ε α β : Type} (e : ε) (f : α → Except ε β) :
    (Except.error e >>= f) = Except.error e := rfl

theorem except_bind_ok {ε α β : Type} (a : α) (f : α → Except ε β) :
    (Except.ok a >>= f) = f a := rfl

theorem insertRow_ok_iff {α : Type} {rows : List (AttrRow α)} {r' : AttrRow α}
    {l : List (AttrRow α)} :
    insertRow rows r' = .ok l ↔
      (∀ r ∈ rows, samePK r' r = false) ∧ l = rows ++ [r'] := by
  rw [insertRow]
  by_cases hany : rows.any (samePK r') = true
  · obtain ⟨r, hr, hpk⟩ := List.any_eq_true.mp hany
    rw [if_pos hany]
    constructor
    · intro hcon
      exact Except.noConfusion hcon
    · rintro ⟨hall, -⟩
      rw [hall r hr] at hpk
      exact Bool.noConfusion hpk
  · have hall : ∀ r ∈ rows, samePK r' r = false := by
      intro r hr
      cases hb : samePK r' r
      · rfl
      · exact absurd (List.any_eq_true.mpr ⟨r, hr, hb⟩) hany
    rw [if_neg hany]
    constructor
    · intro hok
      injection hok with hok
      exact ⟨hall, hok.symm⟩
    · rintro ⟨-, rfl⟩
      rfl

theorem foldlM_insertRow_ok {α β : Type} (g : β → AttrRow α) :
    ∀ (attrs : List β) (acc l : List (AttrRow α)),
      List.foldlM (fun acc kv => insertRow acc (g kv)) acc attrs = .ok l →
      l = acc ++ attrs.map g ∧
      List.Pairwise (fun kv₁ kv₂ => samePK (g kv₂) (g kv₁) = false) attrs ∧
      (∀ kv ∈ attrs, ∀ r₀ ∈ acc, samePK (g kv) r₀ = false) := by
  intro attrs
  induction attrs with
  | nil =>
    intro acc l h
    rw [List.foldlM_nil] at h
    injection h with h
    exact ⟨by simp [h], .nil, by simp⟩
  | cons kv rest ih =>
    intro acc l h
    rw [List.foldlM_cons] at h
    cases hins : insertRow acc (g kv) with
    | error err =>
      rw [hins, except_bind_error] at h
      exact Except.noConfusion h
    | ok acc' =>
      rw [hins, except_bind_ok] at h
      obtain ⟨hnc, hacc'⟩ := insertRow_ok_iff.mp hins
      subst hacc'
      obtain ⟨hl, hpw, hfree⟩ := ih _ _ h
      refine ⟨by simp [hl], ?_, ?_⟩
      · refine List.Pairwise.cons ?_ hpw
        intro kv₂ hkv₂
        exact hfree kv₂ hkv₂ (g kv) (List.mem_append_right _ (List.mem_singleton_self _))
      · intro kv' hkv' r₀ hr₀
        rcases List.mem_cons.mp hkv' with rfl | h'
        · exact hnc r₀ hr₀
        · exact hfree kv' h' r₀ (List.mem_append_left _ hr₀)

/-- The new fact row created for one written attribute. -/
def newRow (e b ttl : Nat) (kv : String × α) : AttrRow α :=
  ⟨e, b, b + ttl, kv.1, kv.2⟩

theorem writeAttrs_ok {α : Type} [DecidableEq α] {rows : List (AttrRow α)} {e : Nat}
    {attrs : List (String × α)} {b ttl : Nat} {l : List (AttrRow α)}
    (h : writeAttrs rows e attrs b ttl = .ok l) :
    l = closeOpenRows rows e (attrs.map Prod.fst) b ++ attrs.map (newRow e b ttl) ∧
    List.Pairwise (fun kv₁ kv₂ =>
      samePK (newRow e b ttl kv₂) (newRow e b ttl kv₁) = false) attrs ∧
    (∀ kv ∈ attrs, ∀ r₀ ∈ closeOpenRows rows e (attrs.map Prod.fst) b,
      samePK (newRow e b ttl kv) r₀ = false) :=
  foldlM_insertRow_ok (newRow e b ttl) attrs _ l h

theorem write_entity_ok {db : DB} {e : Nat} {sattrs : List (String × String)}
    {nattrs : List (String × Int)} {b ttl : Nat} {db' : DB}
    (h : write_entity db e sattrs nattrs b ttl = .ok db') :
    writeAttrs db.string_attributes e sattrs b ttl = .ok db'.string_attributes ∧
    writeAttrs db.numeric_attributes e nattrs b ttl = .ok db'.numeric_attributes := by
  rw [write_entity] at h
  cases hs : writeAttrs db.string_attributes e sattrs b ttl with
  | error err =>
    rw [hs] at h
    exact Except.noConfusion h
  | ok strs =>
    rw [hs] at h
    cases hn : writeAttrs db.numeric_attributes e nattrs b ttl with
    | error err =>
      rw [hn] at h
      exact Except.noConfusion h
    | ok nums =>
      rw [hn] at h
      injection h with h
      subst h
      exact ⟨rfl, rfl⟩

/-- Close-then-insert on one table places the closed version of each open row
of a written key in the result, and the closed row is invisible from the
write block on; the fresh rows are present. -/
theorem writeAttrs_closes {α : Type} [DecidableEq α] {rows : List (AttrRow α)} {e : Nat}
    {attrs : List (String × α)} {b ttl : Nat} {l : List (AttrRow α)}
    (h : writeAttrs rows e attrs b ttl = .ok l) :
    (∀ r ∈ rows, r.entity_key = e → r.key ∈ attrs.map Prod.fst → visibleAt b r = true →
      ({r with to_block := b} : AttrRow α) ∈ l ∧
      ∀ B, b ≤ B → visibleAt B ({r with to_block := b} : AttrRow α) = false) ∧
    (∀ kv ∈ attrs, newRow e b ttl kv ∈ l) := by
  obtain ⟨hl, -, -⟩ := writeAttrs_ok h
  subst hl
  constructor
  · intro r hr he hk hvis
    constructor
    · refine List.mem_append_left _ ?_
      rw [closeOpenRows]
      refine List.mem_map.mpr ⟨r, hr, ?_⟩
      rw [if_pos]
      simp [he, hk, hvis]
    · intro B hB
      have hnlt : ¬(B < b) := Nat.not_lt.mpr hB
      simp [visibleAt, hnlt]
  · intro kv hkv
    exact List.mem_append_right _ (List.mem_map.mpr ⟨kv, hkv, rfl⟩)

/-- C2 (spec-modelled write path): for every attribute written for an entity
at block `b`, any currently-open fact row for the same `(entity_key, key)` is
closed — its copy with `to_block = b` is in the post-state and is invisible
at every block `B >= b` — and the fresh fact row
`(entity_key, key, value, from_block = b, to_block = b + ttl)` is inserted;
this holds on both the string and the numeric attribute tables. -/
theorem write_closes_then_inserts :
    ∀ (db : DB) (e : Nat) (string_attrs : List (String × String))
      (numeric_attrs : List (String × Int)) (b ttl : Nat) (db' : DB),
      write_entity db e string_attrs numeric_attrs b ttl = .ok db' →
      (∀ r ∈ db.string_attributes, r.entity_key = e →
        r.key ∈ string_attrs.map Prod.fst → visibleAt b r = true →
        ({r with to_block := b} : StrRow) ∈ db'.string_attributes ∧
        ∀ B, b ≤ B → visibleAt B ({r with to_block := b} : StrRow) = false) ∧
      (∀ kv ∈ string_attrs,
        (⟨e, b, b + ttl, kv.1, kv.2⟩ : StrRow) ∈ db'.string_attributes) ∧
      (∀ r ∈ db.numeric_attributes, r.entity_key = e →
        r.key ∈ numeric_attrs.map Prod.fst → visibleAt b r = true →
        ({r with to_block := b} : NumRow) ∈ db'.numeric_attributes ∧
        ∀ B, b ≤ B → visibleAt B ({r with to_block := b} : NumRow) = false) ∧
      (∀ kv ∈ numeric_attrs,
        (⟨e, b, b + ttl, kv.1, kv.2⟩ : NumRow) ∈ db'.numeric_attributes) := by
  intro db e sattrs nattrs b ttl db' h
  obtain ⟨hs, hn⟩ := write_entity_ok h
  obtain ⟨hsc, hsi⟩ := writeAttrs_closes hs
  obtain ⟨hnc, hni⟩ := writeAttrs_closes hn
  exact ⟨hsc, hsi, hnc, hni⟩

/-- A one-row database about to be overwritten: entity 1 holds
`status = 'available'` on `[1, 11)`. -/
def dbC2 : DB := ⟨[⟨1, 1, 11, "status", "available"⟩], [], [], none⟩

/-- C2 witness: rewriting `status` for entity 1 at block 5 closes the open
row (its closed copy is present and invisible at block 6) and inserts the
fresh row `[5, 12)`. -/
theorem write_closes_then_inserts_witness :
    (⟨1, 1, 5, "status", "available"⟩ : StrRow) ∈
      (DB.mk [⟨1, 1, 5, "status", "available"⟩, ⟨1, 5, 12, "status", "busy"⟩] [] [] none).string_attributes ∧
    visibleAt 6 (⟨1, 1, 5, "status", "available"⟩ : StrRow) = false ∧
    (⟨1, 5, 12, "status", "busy"⟩ : StrRow) ∈
      (DB.mk [⟨1, 1, 5, "status", "available"⟩, ⟨1, 5, 12, "status", "busy"⟩] [] [] none).string_attributes := by
  have h := write_closes_then_inserts dbC2 1 [("status", "busy")] [] 5 7
    (DB.mk [⟨1, 1, 5, "status", "available"⟩, ⟨1, 5, 12, "status", "busy"⟩] [] [] none) rfl
  have hclose := h.1 ⟨1, 1, 11, "status", "available"⟩ (by decide) rfl (by decide) (by decide)
  have hins := h.2.1 ("status", "busy") (by decide)
  exact ⟨hclose.1, hclose.2 6 (by omega), hins⟩

/-! ### C3: the temporal visibility invariant along the write path -/

theorem mem_closeOpenRows {α : Type} [DecidableEq α] {rows : List (AttrRow α)}
    {e : Nat} {ks : List String} {b : Nat} {r : AttrRow α} :
    r ∈ closeOpenRows rows e ks b ↔
      ∃ r₀ ∈ rows,
        r = if r₀.entity_key == e && decide (r₀.key ∈ ks) && visibleAt b r₀
          then { r₀ with to_block := b } else r₀ := by
  rw [closeOpenRows]
  constructor
  · intro h
    obtain ⟨r₀, h₀, hr⟩ := List.mem_map.mp h
    exact ⟨r₀, h₀, hr.symm⟩
  · rintro ⟨r₀, h₀, rfl⟩
    exact List.mem_map.mpr ⟨r₀, h₀, rfl⟩

theorem writeAttrs_preserves {α : Type} [DecidableEq α] {rows l : List (AttrRow α)}
    {e : Nat} {attrs : List (String × α)} {b c ttl : Nat}
    (hfb : ∀ r ∈ rows, r.from_block ≤ c) (hcb : c ≤ b)
    (hinv : ∀ (B e' : Nat) (k' : String), (matchingVisible rows e' k' B).length ≤ 1)
    (hok : writeAttrs rows e attrs b ttl = .ok l) :
    (∀ r ∈ l, r.from_block ≤ b) ∧
    (∀ (B e' : Nat) (k' : String), (matchingVisible l e' k' B).length ≤ 1) := by
  obtain ⟨hl, hpw, -⟩ := writeAttrs_ok hok
  subst hl
  constructor
  · intro r hr
    rcases List.mem_append.mp hr with h | h
    · obtain ⟨r₀, hr₀, rfl⟩ := mem_closeOpenRows.mp h
      have hc := le_trans (hfb r₀ hr₀) hcb
      by_cases hcond : (r₀.entity_key == e && decide (r₀.key ∈ (attrs.map Prod.fst))
          && visibleAt b r₀) = true
      · rw [if_pos hcond]
        exact hc
      · rw [if_neg hcond]
        exact hc
    · obtain ⟨kv, -, rfl⟩ := List.mem_map.mp h
      exact le_refl b
  · intro B e' k'
    rw [matchingVisible, List.filter_append, List.length_append]
    have hA : (List.filter
        (fun r => r.entity_key == e' && r.key == k' && visibleAt B r)
        (closeOpenRows rows e (attrs.map Prod.fst) b)).length ≤
        (matchingVisible rows e' k' B).length := by
      rw [closeOpenRows, List.filter_map, List.length_map, matchingVisible]
      apply length_filter_le_of_imp
      intro r₀ hr₀ hp
      simp only [Function.comp_apply] at hp
      by_cases hcond : (r₀.entity_key == e && decide (r₀.key ∈ (attrs.map Prod.fst))
          && visibleAt b r₀) = true
      · rw [if_pos hcond] at hp
        simp only [Bool.and_eq_true, beq_iff_eq, visibleAt_iff, decide_eq_true_eq]
            at hp hcond ⊢
        obtain ⟨⟨he', hk'⟩, hfB, hltb⟩ := hp
        obtain ⟨-, -, hbto⟩ := hcond
        exact ⟨⟨he', hk'⟩, hfB, by omega⟩
      · rw [if_neg hcond] at hp
        exact hp
    by_cases hE : e' = e ∧ k' ∈ attrs.map Prod.fst
    · by_cases hbB : b ≤ B
      · have hB0 : List.filter
            (fun r => r.entity_key == e' && r.key == k' && visibleAt B r)
            (closeOpenRows rows e (attrs.map Prod.fst) b) = [] := by
          rw [List.filter_eq_nil_iff]
          intro x hx
          obtain ⟨r₀, hr₀, rfl⟩ := mem_closeOpenRows.mp hx
          by_cases hcond : (r₀.entity_key == e && decide (r₀.key ∈ (attrs.map Prod.fst))
              && visibleAt b r₀) = true
          · rw [if_pos hcond]
            simp only [Bool.and_eq_true, beq_iff_eq, visibleAt_iff, not_and]
            rintro - -
            omega
          · rw [if_neg hcond]
            simp only [Bool.and_eq_true, beq_iff_eq, visibleAt_iff, not_and]
            rintro ⟨hee, hkk⟩ hfB hBto
            refine hcond ?_
            simp only [Bool.and_eq_true, beq_iff_eq, visibleAt_iff, decide_eq_true_eq]
            refine ⟨⟨hee.trans hE.1, hkk ▸ hE.2⟩, le_trans (hfb r₀ hr₀) hcb, by omega⟩
        rw [hB0]
        have hC : (List.filter
            (fun r => r.entity_key == e' && r.key == k' && visibleAt B r)
            (attrs.map (newRow e b ttl))).length ≤ 1 := by
          have hpwnew : List.Pairwise (fun r₁ r₂ : AttrRow α => samePK r₂ r₁ = false)
              (attrs.map (newRow e b ttl)) :=
            List.Pairwise.map _ (fun _ _ h => h) hpw
          refine length_filter_le_one_of_pairwise hpwnew ?_
          intro x hx y hy hpx hpy hR
          obtain ⟨kv₁, -, rfl⟩ := List.mem_map.mp hx
          obtain ⟨kv₂, -, rfl⟩ := List.mem_map.mp hy
          simp only [Bool.and_eq_true, beq_iff_eq, newRow] at hpx hpy
          obtain ⟨⟨-, hk₁⟩, -⟩ := hpx
          obtain ⟨⟨-, hk₂⟩, -⟩ := hpy
          rw [samePK, newRow, newRow] at hR
          simp only [hk₁, hk₂, beq_self_eq_true, Bool.and_self, Bool.and_eq_false_iff]
              at hR
          simp at hR
        simpa using hC
      · have hN0 : List.filter
            (fun r => r.entity_key == e' && r.key == k' && visibleAt B r)
            (attrs.map (newRow e b ttl)) = [] := by
          rw [List.filter_eq_nil_iff]
          intro x hx
          obtain ⟨kv, -, rfl⟩ := List.mem_map.mp hx
          simp only [Bool.and_eq_true, beq_iff_eq, visibleAt_iff, newRow, not_and]
          rintro - hfB
          omega
        rw [hN0]
        simpa using le_trans hA (hinv B e' k')
    · have hN0 : List.filter
          (fun r => r.entity_key == e' && r.key == k' && visibleAt B r)
          (attrs.map (newRow e b ttl)) = [] := by
        rw [List.filter_eq_nil_iff]
        intro x hx
        obtain ⟨kv, hkv, rfl⟩ := List.mem_map.mp hx
        simp only [Bool.and_eq_true, beq_iff_eq, visibleAt_iff, newRow, not_and]
        rintro ⟨hee, hkk⟩
        exact absurd ⟨hee.symm, hkk ▸ List.mem_map.mpr ⟨kv, hkv, rfl⟩⟩ hE
      rw [hN0]
      simpa using le_trans hA (hinv B e' k')

theorem reachable_invariant {db : DB} {c : Nat} (h : Reachable db c) :
    (∀ r ∈ db.string_attributes, r.from_block ≤ c) ∧
    (∀ r ∈ db.numeric_attributes, r.from_block ≤ c) ∧
    (∀ (B e : Nat) (k : String),
      (matchingVisible db.string_attributes e k B).length ≤ 1 ∧
      (matchingVisible db.numeric_attributes e k B).length ≤ 1) := by
  induction h with
  | empty c => simp [matchingVisible]
  | write e sattrs nattrs hreach hmono hok ih =>
    obtain ⟨hs, hn⟩ := write_entity_ok hok
    obtain ⟨ihs, ihn, ihv⟩ := ih
    obtain ⟨hsf, hsv⟩ := writeAttrs_preserves ihs hmono (fun B e' k' => (ihv B e' k').1) hs
    obtain ⟨hnf, hnv⟩ := writeAttrs_preserves ihn hmono (fun B e' k' => (ihv B e' k').2) hn
    exact ⟨hsf, hnf, fun B e' k' => ⟨hsv B e' k', hnv B e' k'⟩⟩

/-- C3 (spec-modelled write path): in every database state reachable through
the close-then-insert write path (successful `write_entity` calls at
non-decreasing blocks, starting from the empty store), for all entities `e`,
attribute keys `k` and blocks `B`, at most one fact row for `(e, k)` is
visible at `B` (`from_block <= B < to_block`) — in both attribute tables; in
particular rewriting an entity key inside a prior row's validity window does
not leave two rows simultaneously visible. -/
theorem temporal_visibility_invariant :
    ∀ (db : DB) (c : Nat), Reachable db c → ∀ (B e : Nat) (k : String),
      (matchingVisible db.string_attributes e k B).length ≤ 1 ∧
      (matchingVisible db.numeric_attributes e k B).length ≤ 1 :=
  fun _ _ h B e k => (reachable_invariant h).2.2 B e k

/-- The state after writing entity 1 at block 1 with ttl 10. -/
def dbC3a : DB := ⟨[⟨1, 1, 11, "status", "available"⟩], [], [], none⟩

/-- The state after writing entity 1 at block 1 (ttl 10) and rewriting it at
block 5 (ttl 7) inside the first row's validity window. -/
def dbC3 : DB :=
  ⟨[⟨1, 1, 5, "status", "available"⟩, ⟨1, 5, 12, "status", "busy"⟩], [], [], none⟩

/-- C3 witness: the invariant instantiated on a concrete two-write chain that
rewrites entity 1 inside the first write's validity window, checked at
block 7. -/
theorem temporal_visibility_invariant_witness :
    (matchingVisible dbC3.string_attributes 1 "status" 7).length ≤ 1 ∧
    (matchingVisible dbC3.numeric_attributes 1 "status" 7).length ≤ 1 :=
  temporal_visibility_invariant dbC3 5
    (@Reachable.write dbC3a 1 1 [("status", "busy")] [] 5 7 dbC3
      (@Reachable.write emptyDB 0 1 [("status", "available")] [] 1 10 dbC3a
        (Reachable.empty 0) (by omega) rfl)
      (by omega) rfl)
    7 1 "status"

end SqlitePerf
